import Mathlib

/-!
Verification of the JargonTranslator repository.

Python strings are shallow-embedded as `List Char`; the functions below
are direct translations of the corresponding Python functions in
`src/utils.py`, `src/audio.py`, `src/api_client.py` and
`JargonTranslator_v2.py`.
-/

namespace JargonTranslator

/-! ### Python string primitives -/

/-- The whitespace characters removed by Python's default `str.strip()`
(restricted to the ASCII range, which is all that occurs here):
space, tab, newline, carriage return, vertical tab, form feed. -/
def pyIsSpace (c : Char) : Bool :=
  c = ' ' || c = '\t' || c = '\n' || c = '\r' || c = '\x0b' || c = '\x0c'

/-- Python `s.strip()`: remove leading and trailing whitespace. -/
def pyStrip (s : List Char) : List Char :=
  ((s.dropWhile pyIsSpace).reverse.dropWhile pyIsSpace).reverse

/-- Python `s.split("\n")`: split on every newline character; an empty
string yields `[[]]`, matching Python's `"".split("\n") == [""]`. -/
def splitLines : List Char → List (List Char)
  | [] => [[]]
  | c :: cs =>
    if c = '\n' then [] :: splitLines cs
    else
      match splitLines cs with
      | [] => [[c]]
      | l :: ls => (c :: l) :: ls

/-- Python `line.endswith(":")`. -/
def endsWithColon (s : List Char) : Bool :=
  s.getLast? = some ':'

/-- `true` iff the string does not start with a whitespace character
(so Python's `strip` removes nothing on the left). -/
def noLeadWS (s : List Char) : Bool :=
  match s with
  | [] => true
  | c :: _ => !pyIsSpace c

/-- `true` iff the string does not end with a whitespace character
(so Python's `strip` removes nothing on the right). -/
def noTrailWS (s : List Char) : Bool :=
  noLeadWS s.reverse

/-! ### Notification segmenter (`src/utils.py`, `split_output_to_notifications`)

The Python loop keeps a `title` variable that starts as `None` and is
tested with `if title:`, which is false both for `None` and for the
empty string; it is therefore embedded as a `List Char` where `[]`
plays the role of "no pending title". -/

/-- The placeholder description emitted for a title that never receives
a description line. -/
def noDescription : List Char :=
  [ 'N', 'o', ' ', 'd', 'e', 's', 'c', 'r', 'i', 'p', 't', 'i', 'o', 'n',
    ' ', 'p', 'r', 'o', 'v', 'i', 'd', 'e', 'd', '.' ]

/-- One iteration of the `for line in lines` loop of
`split_output_to_notifications`.  State: accumulated pairs and the
pending title (`[]` = none). -/
def stepLine (st : List (List Char × List Char) × List Char) (rawLine : List Char) :
    List (List Char × List Char) × List Char :=
  let line := pyStrip rawLine
  let notifs := st.1
  let title := st.2
  if endsWithColon line then
    (if title ≠ [] then notifs ++ [(title, noDescription)] else notifs, line.dropLast)
  else if line ≠ [] then
    if title ≠ [] then (notifs ++ [(title, line)], []) else (notifs, title)
  else (notifs, title)

/-- The loop and the trailing-title clean-up of
`split_output_to_notifications`, starting from the list of lines. -/
def segmentLines (lines : List (List Char)) : List (List Char × List Char) :=
  let st := lines.foldl stepLine ([], [])
  if st.2 ≠ [] then st.1 ++ [(st.2, noDescription)] else st.1

/-- `split_output_to_notifications(output)` from `src/utils.py`:
strip the whole string, split on newlines, then run the title/description
state machine. -/
def split_output_to_notifications (output : List Char) : List (List Char × List Char) :=
  segmentLines (splitLines (pyStrip output))

/-! ### Audio processing (`src/audio.py`)

Sample values are modelled as real numbers; NumPy's `NaN` (the RMS of
an empty array) is not a real number, so the empty-window case is made
explicit in `is_silent`, with the float comparison `NaN < t = False`
reflected by returning `False` there. -/

/-- Root-mean-square of a window of samples:
`sqrt(mean(square(audio_data)))`.  (On the empty list Lean's convention
`x / 0 = 0` gives `rms [] = 0`; the Python value there is `NaN`, which
`is_silent` below accounts for separately.) -/
noncomputable def rms (audio_data : List ℝ) : ℝ :=
  Real.sqrt (((audio_data.map (fun x => x ^ 2)).sum) / audio_data.length)

/-- `is_silent(audio_data, threshold)` from `src/audio.py`:
`rms < threshold` with strict inequality.  For an empty window NumPy
produces `rms = NaN` and `NaN < threshold` is `False`, hence the
explicit first branch. -/
def is_silent (audio_data : List ℝ) (threshold : ℝ) : Prop :=
  if audio_data = [] then False else rms audio_data < threshold

/-- Maximum value for 16-bit signed integer audio (`INT16_MAX` in
`src/audio.py`). -/
noncomputable def INT16_MAX : ℝ := 32768.0

/-- `normalize_audio(audio_buffer)` from `src/audio.py`: reinterpret the
byte buffer as int16 samples and divide by 32768.0.  The buffer is
modelled as the list of its int16 sample values. -/
noncomputable def normalize_audio (samples : List ℤ) : List ℝ :=
  samples.map (fun s : ℤ => (s : ℝ) / INT16_MAX)

/-- A list of int16 sample values: each in `[-32768, 32767]`. -/
def int16Samples (samples : List ℤ) : Prop :=
  ∀ s ∈ samples, -32768 ≤ s ∧ s ≤ 32767

/-! ### JSON values and `_parse_response` (`src/api_client.py`)

`response.json()` produces a Python object; embedded as `JsonVal`.
`_parse_response` catches `KeyError`, `IndexError` and `TypeError`
(returning `""`), but `response_data.get(...)` on a non-dict raises
`AttributeError`, which is *not* caught; the embedding therefore
returns `Except PyError JsonVal`. -/

/-- A JSON value as decoded by `response.json()`. -/
inductive JsonVal where
  | null : JsonVal
  | bool (b : Bool) : JsonVal
  | num (n : ℤ) : JsonVal
  | str (s : List Char) : JsonVal
  | arr (elems : List JsonVal) : JsonVal
  | obj (fields : List (List Char × JsonVal)) : JsonVal

/-- Uncaught Python exceptions relevant to the client. -/
inductive PyError where
  | attributeError : PyError
deriving DecidableEq

/-- Python truthiness of a decoded JSON value (`if rows:`). -/
def truthy : JsonVal → Bool
  | .null => false
  | .bool b => b
  | .num n => n ≠ 0
  | .str s => s ≠ []
  | .arr elems => !elems.isEmpty
  | .obj fields => !fields.isEmpty

/-- Dictionary lookup `v[key]` succeeding only on a dict containing the
key; every failing case (`KeyError` on a dict, `TypeError` otherwise)
is caught by `_parse_response`, so `none` stands for all of them. -/
def getField (v : JsonVal) (key : List Char) : Option JsonVal :=
  match v with
  | .obj fields => (fields.find? (fun kv => kv.1 = key)).map (fun kv => kv.2)
  | _ => none

/-- Sequence indexing `v[i]` succeeding only on a list that is long
enough; the failing cases (`IndexError`, `TypeError`) are caught by
`_parse_response`, so `none` stands for them.  (Python string indexing
returns a 1-character string, but the next subscript in the fixed path
then raises `TypeError`, so collapsing it to `none` is equivalent.) -/
def getIdx (v : JsonVal) (i : ℕ) : Option JsonVal :=
  match v with
  | .arr elems => elems.get? i
  | _ => none

/-- `_parse_response(response_data)` from `src/api_client.py`.
On a dict: `rows = response_data.get("rows", [])`; if `rows` is truthy,
extract `rows[0]["columns"]["Output"]["choices"][0]["message"]["content"]`,
with `KeyError`/`IndexError`/`TypeError` anywhere in the chain caught
and turned into `""`.  On a non-dict, `.get` raises `AttributeError`,
which nothing catches. -/
def parse_response (response_data : JsonVal) : Except PyError JsonVal :=
  match response_data with
  | .obj fields =>
    let rows := (getField (.obj fields) "rows".data).getD (.arr [])
    if truthy rows then
      .ok ((((((((getIdx rows 0).bind
          (fun r => getField r "columns".data)).bind
          (fun r => getField r "Output".data)).bind
          (fun r => getField r "choices".data)).bind
          (fun r => getIdx r 0)).bind
          (fun r => getField r "message".data)).bind
          (fun m => getField m "content".data)).getD (.str []))
    else .ok (.str [])
  | _ => .error .attributeError

/-- Modelled from the spec: the fixed nested path
`rows[0].columns.Output.choices[0].message.content`, written directly
from the spec's description of the response shape, independently of the
code's truthiness test and exception handling.  `some` iff the path is
present. -/
def specContentPath (response_data : JsonVal) : Option JsonVal :=
  (((((((getField response_data "rows".data).bind
      (fun rows => getIdx rows 0)).bind
      (fun r => getField r "columns".data)).bind
      (fun r => getField r "Output".data)).bind
      (fun r => getField r "choices".data)).bind
      (fun r => getIdx r 0)).bind
      (fun r => getField r "message".data)).bind
      (fun m => getField m "content".data)

/-! ### API client retry loop (`src/api_client.py`, `send_transcription`)

One call is driven by the outcome of each HTTP attempt, supplied as a
function `outcomes : ℕ → Outcome` (attempt numbers are 1-based, as in
`for attempt in range(1, max_retries + 1)`).  The trace records the
result, the number of attempts actually made, and the list of back-off
sleeps in order. -/

/-- The failure modes of one `requests.post` + `raise_for_status`
attempt, matching the `except` clauses of `send_transcription`. -/
inductive ErrKind where
  | timeout : ErrKind
  | connError : ErrKind
  | httpError (status : ℕ) : ErrKind
  | reqError : ErrKind
deriving DecidableEq

/-- The outcome of one HTTP attempt: a 2xx response with decoded JSON
body, or one of the caught exceptions. -/
inductive Outcome where
  | ok (resp : JsonVal) : Outcome
  | err (e : ErrKind) : Outcome

/-- The result of a whole `send_transcription` call. -/
inductive SendResult where
  /-- Normal return: the value extracted by `_parse_response`. -/
  | parsed (v : JsonVal) : SendResult
  /-- `raise APIError(f"Failed after ... attempts: ...")`; carries the
  `max_retries` figure quoted in the message and the last error. -/
  | apiError (retries : ℕ) (lastError : Option ErrKind) : SendResult
  /-- An exception no `except` clause matches (e.g. `AttributeError`
  from `_parse_response`) propagating out of the call. -/
  | uncaught (e : PyError) : SendResult

/-- Full observable trace of one `send_transcription` call. -/
structure CallTrace where
  result : SendResult
  attempts : ℕ
  sleeps : List ℚ

/-- The `break` condition of the `except HTTPError` clause:
`response.status_code < 500` (client errors are not retried). -/
def breakCond : ErrKind → Bool
  | .httpError status => status < 500
  | _ => false

/-- The `for attempt in range(1, max_retries + 1)` loop of
`send_transcription`, recursing over the remaining attempt numbers.
`lastError`, `made` and `sleeps` thread the loop state. -/
def runAttempts (outcomes : ℕ → Outcome) (maxRetries : ℕ) (retryDelay : ℚ) :
    List ℕ → Option ErrKind → ℕ → List ℚ → CallTrace
  | [], lastError, made, sleeps =>
    ⟨.apiError maxRetries lastError, made, sleeps⟩
  | attempt :: rest, lastError, made, sleeps =>
    match outcomes attempt with
    | .ok resp =>
      match parse_response resp with
      | .ok v => ⟨.parsed v, made + 1, sleeps⟩
      | .error e => ⟨.uncaught e, made + 1, sleeps⟩
    | .err e =>
      if breakCond e then
        ⟨.apiError maxRetries (some e), made + 1, sleeps⟩
      else
        let sleeps' :=
          if attempt < maxRetries then sleeps ++ [retryDelay * 2 ^ (attempt - 1)]
          else sleeps
        runAttempts outcomes maxRetries retryDelay rest (some e) (made + 1) sleeps'

/-- `send_transcription` from `src/api_client.py`, abstracted over the
outcome of each attempt. -/
def send_transcription (outcomes : ℕ → Outcome) (maxRetries : ℕ) (retryDelay : ℚ) :
    CallTrace :=
  runAttempts outcomes maxRetries retryDelay (List.range' 1 maxRetries) none 0 []

/-- The retryable error kinds named by the spec: timeout, connection
failure, server error (5xx). -/
def retryableErr : ErrKind → Prop
  | .timeout => True
  | .connError => True
  | .httpError status => 500 ≤ status
  | .reqError => False

/-- The error recorded in `last_error` by an attempt, if any. -/
def errOf : Outcome → Option ErrKind
  | .ok _ => none
  | .err e => some e

/-- Join lines with a single newline character (used to build concrete
segmenter inputs line by line). -/
def joinNL : List (List Char) → List Char
  | [] => []
  | [l] => l
  | l :: l' :: ls => l ++ '\n' :: joinNL (l' :: ls)

/-! ### Buffer accumulator (`JargonTranslator_v2.py`, `run`)

The loop appends one fixed-size chunk of `chunkBytes` bytes per read and,
once `bufferSize ≤ length`, hands the whole accumulated buffer to the
silence gate / transcription and resets it to `b""` (both on the silent
path and on the normal path).  Only byte lengths matter for the claim,
so the state is the accumulated length. -/

/-- One iteration of the capture loop: accumulated length `acc` grows by
`chunkBytes`; if the threshold is reached the window (its length) is
emitted and the accumulator resets. -/
def accStep (chunkBytes bufferSize acc : ℕ) : ℕ × Option ℕ :=
  let a := acc + chunkBytes
  if bufferSize ≤ a then (0, some a) else (a, none)

/-- Run `n` iterations of the capture loop from an empty accumulator;
returns the final accumulated length and the lengths of all emitted
windows, in order. -/
def runAcc (chunkBytes bufferSize : ℕ) : ℕ → ℕ × List ℕ
  | 0 => (0, [])
  | n + 1 =>
    let st := runAcc chunkBytes bufferSize n
    match accStep chunkBytes bufferSize st.1 with
    | (a, none) => (a, st.2)
    | (a, some w) => (a, st.2 ++ [w])

/-- The target window size in bytes:
`sample_rate * channels * buffer_duration * 2`. -/
def windowBytes (sampleRate channels bufferDuration : ℕ) : ℕ :=
  sampleRate * channels * bufferDuration * 2

/-! ### Per-window processing (`JargonTranslator_v2.py`,
`_process_transcription`)

The body is `try: ... except APIError: log`.  The embedding takes the
result of `self.api_client.send_transcription(transcription)` and
returns the notifications shown; an exception that is not an `APIError`
(the only kind the `except` clause matches) propagates as `.error`. -/

/-- What reaches `_process_transcription` from the API call. -/
inductive ApiCallOutcome where
  | ok (resp : List Char) : ApiCallOutcome
  | apiError (retries : ℕ) (lastError : Option ErrKind) : ApiCallOutcome
  | otherExc (e : PyError) : ApiCallOutcome
deriving DecidableEq

/-- `_process_transcription`: on a normal response, show one
notification per segmented pair when the stripped response is
non-empty; on `APIError`, log and show nothing (`.ok []`); any other
exception is not matched by the `except` clause and propagates. -/
def process_transcription (apiCall : ApiCallOutcome) :
    Except PyError (List (List Char × List Char)) :=
  match apiCall with
  | .ok resp =>
    if pyStrip resp ≠ [] then .ok (split_output_to_notifications resp)
    else .ok []
  | .apiError _ _ => .ok []
  | .otherExc e => .error e

end JargonTranslator


namespace JargonTranslator

/-! ### Helper lemmas about the Python string primitives -/

theorem splitLines_append (A rest : List Char) (hA : '\n' ∉ A) :
    splitLines (A ++ '\n' :: rest) = A :: splitLines rest := by
  induction A with
  | nil => simp [splitLines]
  | cons c cs ih =>
    have hc : c ≠ '\n' := fun h => hA (h ▸ List.mem_cons_self c cs)
    have hcs : '\n' ∉ cs := fun h => hA (List.mem_cons_of_mem _ h)
    simp [splitLines, hc, ih hcs]

theorem splitLines_eq_single (A : List Char) (hA : '\n' ∉ A) : splitLines A = [A] := by
  induction A with
  | nil => rfl
  | cons c cs ih =>
    have hc : c ≠ '\n' := fun h => hA (h ▸ List.mem_cons_self c cs)
    have hcs : '\n' ∉ cs := fun h => hA (List.mem_cons_of_mem _ h)
    simp [splitLines, hc, ih hcs]

theorem dropWhile_of_noLeadWS {s : List Char} (h : noLeadWS s = true) :
    s.dropWhile pyIsSpace = s := by
  cases s with
  | nil => rfl
  | cons c cs =>
    have hc : pyIsSpace c = false := by simpa [noLeadWS] using h
    simp [List.dropWhile_cons, hc]

theorem pyStrip_eq_self {s : List Char} (h1 : noLeadWS s = true) (h2 : noTrailWS s = true) :
    pyStrip s = s := by
  have h2' : noLeadWS s.reverse = true := h2
  unfold pyStrip
  rw [dropWhile_of_noLeadWS h1, dropWhile_of_noLeadWS h2', List.reverse_reverse]

theorem noLeadWS_append {A : List Char} (B : List Char) (hA : A ≠ []) (h : noLeadWS A = true) :
    noLeadWS (A ++ B) = true := by
  cases A with
  | nil => exact absurd rfl hA
  | cons c cs => simpa [noLeadWS] using h

theorem noTrailWS_append (A : List Char) {B : List Char} (hB : B ≠ []) (h : noTrailWS B = true) :
    noTrailWS (A ++ B) = true := by
  unfold noTrailWS at *
  rw [List.reverse_append]
  exact noLeadWS_append _ (by simpa using hB) h

theorem ne_nil_of_endsWithColon {s : List Char} (h : endsWithColon s = true) : s ≠ [] := by
  intro hs
  subst hs
  simp [endsWithColon] at h

theorem noTrailWS_of_endsWithColon {s : List Char} (h : endsWithColon s = true) :
    noTrailWS s = true := by
  have h' : s.getLast? = some ':' := by simpa [endsWithColon] using h
  have hr : s.reverse.head? = some ':' := by rw [List.head?_reverse]; exact h'
  unfold noTrailWS
  cases hs : s.reverse with
  | nil => rw [hs] at hr; simp at hr
  | cons c cs =>
    rw [hs] at hr
    have : c = ':' := by simpa using hr
    subst this
    simp [noLeadWS, pyIsSpace]

/-! ### Claim C7 -/

theorem foldl_no_title (lines : List (List Char))
    (h : ∀ l ∈ lines, endsWithColon (pyStrip l) = false) :
    ∀ notifs, List.foldl stepLine (notifs, []) lines = (notifs, []) := by
  induction lines with
  | nil => intro notifs; rfl
  | cons l ls ih =>
    intro notifs
    have hl : endsWithColon (pyStrip l) = false := h l (List.mem_cons_self l ls)
    have hstep : stepLine (notifs, []) l = (notifs, []) := by
      simp [stepLine, hl]
    rw [List.foldl_cons, hstep, ih (fun x hx => h x (List.mem_cons_of_mem _ hx))]

/-- C7: an input whose lines (as actually split and stripped by the
code) never end in a colon produces no notifications, and any block of
non-title lines before the first title line is discarded without
affecting the rest of the parse.  (The function is total by
construction, which is the shallow form of "never raises".) -/
theorem claim7_no_title_lines :
    (∀ s : List Char,
      (∀ l ∈ splitLines (pyStrip s), endsWithColon (pyStrip l) = false) →
      split_output_to_notifications s = []) ∧
    (∀ pre post : List (List Char),
      (∀ l ∈ pre, endsWithColon (pyStrip l) = false) →
      segmentLines (pre ++ post) = segmentLines post) := by
  constructor
  · intro s hs
    unfold split_output_to_notifications segmentLines
    rw [foldl_no_title _ hs]
    simp
  · intro pre post hpre
    unfold segmentLines
    rw [List.foldl_append, foldl_no_title _ hpre]

/-- Witness for C7 at concrete inputs. -/
theorem claim7_witness :
    split_output_to_notifications "hello\nworld".data = [] ∧
    segmentLines (["stray text".data] ++ ["T:".data, "d".data]) =
      segmentLines ["T:".data, "d".data] :=
  ⟨claim7_no_title_lines.1 "hello\nworld".data (by decide),
   claim7_no_title_lines.2 ["stray text".data] ["T:".data, "d".data] (by decide)⟩

end JargonTranslator

namespace JargonTranslator

/-! ### Claim C1 -/

/-- C1 counterexample: the input `"A::\nB"` has the claimed form — a
non-empty first line ending in a colon followed by a non-empty second
line not ending in a colon — yet the emitted title is `"A:"`, which
still carries a trailing colon, refuting "no emitted title ever
contains a trailing colon". -/
theorem claim1_counterexample :
    endsWithColon "A::".data = true ∧
    endsWithColon "B".data = false ∧
    split_output_to_notifications "A::\nB".data = [("A:".data, "B".data)] ∧
    endsWithColon "A:".data = true := by decide

/-- C1 (amended): for a title line `T` ending in a colon, with non-empty
text before that colon, and a non-empty description line `D` not ending
in a colon — both lines free of newlines and of leading/trailing
whitespace — `split_output_to_notifications` on `T ++ "\n" ++ D`
returns exactly the single pair `(T minus its final character, D)`.
Only one trailing colon is removed, so the emitted title may itself end
in a colon when the title line ends in `"::"`. -/
theorem claim1_amended_single_pair (T D : List Char)
    (hTc : endsWithColon T = true) (hTd : T.dropLast ≠ []) (hTn : '\n' ∉ T)
    (hTl : noLeadWS T = true)
    (hDe : D ≠ []) (hDc : endsWithColon D = false) (hDn : '\n' ∉ D)
    (hDl : noLeadWS D = true) (hDt : noTrailWS D = true) :
    split_output_to_notifications (T ++ '\n' :: D) = [(T.dropLast, D)] := by
  have hTe : T ≠ [] := ne_nil_of_endsWithColon hTc
  have hTt : noTrailWS T = true := noTrailWS_of_endsWithColon hTc
  have hstrip : pyStrip (T ++ '\n' :: D) = T ++ '\n' :: D := by
    refine pyStrip_eq_self (noLeadWS_append _ hTe hTl) ?_
    exact noTrailWS_append T (B := '\n' :: D) (by simp)
      (noTrailWS_append ['\n'] hDe hDt)
  have s1 : stepLine ([], []) T = ([], T.dropLast) := by
    simp [stepLine, pyStrip_eq_self hTl hTt, hTc]
  have s2 : stepLine ([], T.dropLast) D = ([(T.dropLast, D)], []) := by
    simp [stepLine, pyStrip_eq_self hDl hDt, hDc, hDe, hTd]
  unfold split_output_to_notifications
  rw [hstrip, splitLines_append T D hTn, splitLines_eq_single D hDn]
  unfold segmentLines
  rw [List.foldl_cons, List.foldl_cons, List.foldl_nil, s1, s2]
  simp

/-- Witness for C1 (amended) at the concrete input `"AI:\nArtificial
Intelligence"`. -/
theorem claim1_witness :
    split_output_to_notifications ("AI:".data ++ '\n' :: "Artificial Intelligence".data) =
      [("AI:".data.dropLast, "Artificial Intelligence".data)] :=
  claim1_amended_single_pair "AI:".data "Artificial Intelligence".data
    (by decide) (by decide) (by decide) (by decide) (by decide) (by decide)
    (by decide) (by decide) (by decide)

end JargonTranslator

namespace JargonTranslator

/-! ### Claim C6 -/

theorem joinNL_cons (l : List Char) (ls : List (List Char)) :
    ∃ B, joinNL (l :: ls) = l ++ B := by
  cases ls with
  | nil => exact ⟨[], (List.append_nil l).symm⟩
  | cons l' ls' => exact ⟨'\n' :: joinNL (l' :: ls'), rfl⟩

theorem joinNL_ne_nil {l : List Char} (ls : List (List Char)) (hl : l ≠ []) :
    joinNL (l :: ls) ≠ [] := by
  obtain ⟨B, hB⟩ := joinNL_cons l ls
  rw [hB]
  exact List.append_ne_nil_of_left_ne_nil hl B

theorem noTrailWS_joinNL (L : List (List Char)) (hL : L ≠ [])
    (h : ∀ l ∈ L, endsWithColon l = true) : noTrailWS (joinNL L) = true := by
  induction L with
  | nil => exact absurd rfl hL
  | cons l ls ih =>
    cases ls with
    | nil => exact noTrailWS_of_endsWithColon (h l (List.mem_cons_self l []))
    | cons l' ls' =>
      have hJ : noTrailWS (joinNL (l' :: ls')) = true :=
        ih (List.cons_ne_nil l' ls') (fun x hx => h x (List.mem_cons_of_mem _ hx))
      have hl' : l' ≠ [] :=
        ne_nil_of_endsWithColon (h l' (List.mem_cons_of_mem _ (List.mem_cons_self l' ls')))
      show noTrailWS (l ++ '\n' :: joinNL (l' :: ls')) = true
      exact noTrailWS_append l (by simp)
        (noTrailWS_append ['\n'] (joinNL_ne_nil ls' hl') hJ)

theorem splitLines_joinNL (L : List (List Char)) (hL : L ≠ [])
    (h : ∀ l ∈ L, '\n' ∉ l) : splitLines (joinNL L) = L := by
  induction L with
  | nil => exact absurd rfl hL
  | cons l ls ih =>
    cases ls with
    | nil => exact splitLines_eq_single l (h l (List.mem_cons_self l []))
    | cons l' ls' =>
      show splitLines (l ++ '\n' :: joinNL (l' :: ls')) = _
      rw [splitLines_append l _ (h l (List.mem_cons_self l _)),
        ih (List.cons_ne_nil l' ls') (fun x hx => h x (List.mem_cons_of_mem _ hx))]

theorem foldl_title_lines (Ts : List (List Char))
    (h : ∀ T ∈ Ts, T ≠ [] ∧ noLeadWS T = true) :
    ∀ (notifs : List (List Char × List Char)) (p : List Char), p ≠ [] →
      List.foldl stepLine (notifs, p) (Ts.map (fun T => T ++ [':'])) =
        (notifs ++ ((p :: Ts).dropLast).map (fun t => (t, noDescription)),
          (p :: Ts).getLast (List.cons_ne_nil p Ts)) := by
  induction Ts with
  | nil =>
    intro notifs p hp
    simp
  | cons T Ts ih =>
    intro notifs p hp
    obtain ⟨hT, hTl⟩ := h T (List.mem_cons_self T Ts)
    have hline : pyStrip (T ++ [':']) = T ++ [':'] := by
      refine pyStrip_eq_self (noLeadWS_append _ hT hTl) ?_
      exact noTrailWS_of_endsWithColon (by simp [endsWithColon])
    have hcolon : endsWithColon (T ++ [':']) = true := by simp [endsWithColon]
    have hstep : stepLine (notifs, p) (T ++ [':']) = (notifs ++ [(p, noDescription)], T) := by
      simp [stepLine, hline, hcolon, hp, List.dropLast_concat]
    rw [List.map_cons, List.foldl_cons, hstep,
      ih (fun x hx => h x (List.mem_cons_of_mem _ hx)) _ T hT]
    simp only [Prod.mk.injEq]
    constructor
    · simp [List.dropLast_cons₂]
    · rw [List.getLast_cons (List.cons_ne_nil T Ts)]

end JargonTranslator

namespace JargonTranslator

/-- C6 counterexample: the line `":"` is a non-empty line ending in a
colon (hence a title line) that is never paired with a description, yet
the output is empty — no `("", "No description provided.")` pair is
emitted, because the loop's `if title:` test treats the empty pending
title exactly like "no pending title". -/
theorem claim6_counterexample :
    endsWithColon (pyStrip ":".data) = true ∧
    split_output_to_notifications ":".data = [] := by decide

/-- C6 (amended): restricted to title lines whose text before the
trailing colon is non-empty (and which carry no leading whitespace and
no embedded newline), a run of consecutive title lines with no
interleaving description yields one
`(title, "No description provided.")` pair per title, in order,
including the final trailing unpaired title. -/
theorem claim6_amended_placeholders (Ts : List (List Char))
    (h : ∀ T ∈ Ts, T ≠ [] ∧ '\n' ∉ T ∧ noLeadWS T = true) :
    split_output_to_notifications (joinNL (Ts.map (fun T => T ++ [':']))) =
      Ts.map (fun T => (T, noDescription)) := by
  cases Ts with
  | nil => rfl
  | cons T Ts' =>
    obtain ⟨hT, hTn, hTl⟩ := h T (List.mem_cons_self T Ts')
    have hcolon_all : ∀ l ∈ (T :: Ts').map (fun x => x ++ [':']),
        endsWithColon l = true := by
      intro l hl
      obtain ⟨x, _, rfl⟩ := List.mem_map.mp hl
      simp [endsWithColon]
    have hnl_all : ∀ l ∈ (T :: Ts').map (fun x => x ++ [':']), '\n' ∉ l := by
      intro l hl
      obtain ⟨x, hx, rfl⟩ := List.mem_map.mp hl
      intro hc
      rcases List.mem_append.mp hc with h1 | h1
      · exact (h x hx).2.1 h1
      · simp at h1
    have hLne : (T :: Ts').map (fun x => x ++ [':']) ≠ [] := by simp
    have hstrip : pyStrip (joinNL ((T :: Ts').map (fun x => x ++ [':']))) =
        joinNL ((T :: Ts').map (fun x => x ++ [':'])) := by
      refine pyStrip_eq_self ?_ (noTrailWS_joinNL _ hLne hcolon_all)
      rw [List.map_cons]
      obtain ⟨B, hB⟩ := joinNL_cons (T ++ [':']) (Ts'.map (fun x => x ++ [':']))
      rw [hB]
      exact noLeadWS_append _ (List.append_ne_nil_of_left_ne_nil hT _)
        (noLeadWS_append _ hT hTl)
    unfold split_output_to_notifications
    rw [hstrip, splitLines_joinNL _ hLne hnl_all]
    unfold segmentLines
    rw [List.map_cons, List.foldl_cons]
    have hline : pyStrip (T ++ [':']) = T ++ [':'] := by
      refine pyStrip_eq_self (noLeadWS_append _ hT hTl) ?_
      exact noTrailWS_of_endsWithColon (by simp [endsWithColon])
    have hstep0 : stepLine ([], []) (T ++ [':']) = ([], T) := by
      simp [stepLine, hline, endsWithColon, List.dropLast_concat]
    rw [hstep0,
      foldl_title_lines Ts' (fun x hx => ⟨(h x (List.mem_cons_of_mem _ hx)).1,
        (h x (List.mem_cons_of_mem _ hx)).2.2⟩) [] T hT]
    have hlast_ne : (T :: Ts').getLast (List.cons_ne_nil T Ts') ≠ [] :=
      (h _ (List.getLast_mem (List.cons_ne_nil T Ts'))).1
    simp only [ne_eq, hlast_ne, not_false_eq_true, if_true, List.nil_append]
    conv_rhs => rw [← List.dropLast_concat_getLast (List.cons_ne_nil T Ts')]
    rw [List.map_append, List.map_cons, List.map_nil]

/-- Witness for C6 (amended) at two consecutive title lines
`"AI:"` and `"ML:"`. -/
theorem claim6_witness :
    split_output_to_notifications
        (joinNL (["AI".data, "ML".data].map (fun T => T ++ [':']))) =
      ["AI".data, "ML".data].map (fun T => (T, noDescription)) :=
  claim6_amended_placeholders ["AI".data, "ML".data] (by decide)

end JargonTranslator

namespace JargonTranslator

/-! ### Claims C8 and C4 (silence gate) -/

theorem rms_replicate (n : ℕ) (hn : 0 < n) (a : ℝ) :
    rms (List.replicate n a) = |a| := by
  unfold rms
  rw [List.map_replicate, List.sum_replicate, List.length_replicate, nsmul_eq_mul,
    mul_div_cancel_left₀ _ (by exact_mod_cast hn.ne' : (n : ℝ) ≠ 0)]
  exact Real.sqrt_sq_eq_abs a

/-- C8: `is_silent` is the strict comparison `rms < threshold`: a
non-empty all-zero window is silent at the default threshold 500; a
non-empty constant-amplitude window of amplitude `a ≥ 0` is silent iff
`a < threshold`; a window whose RMS equals the threshold is not silent;
and the empty window (NaN RMS in NumPy) is never silent (fail open). -/
theorem claim8_rms_strict :
    (∀ n : ℕ, 0 < n → is_silent (List.replicate n (0 : ℝ)) 500) ∧
    (∀ (n : ℕ) (a t : ℝ), 0 < n → 0 ≤ a →
      (is_silent (List.replicate n a) t ↔ a < t)) ∧
    (∀ (xs : List ℝ) (t : ℝ), rms xs = t → ¬ is_silent xs t) ∧
    (∀ t : ℝ, ¬ is_silent ([] : List ℝ) t) := by
  have hconst : ∀ (n : ℕ) (a t : ℝ), 0 < n → 0 ≤ a →
      (is_silent (List.replicate n a) t ↔ a < t) := by
    intro n a t hn ha
    unfold is_silent
    rw [if_neg (by simp [hn.ne'] : ¬ List.replicate n a = [])]
    rw [rms_replicate n hn a, abs_of_nonneg ha]
  refine ⟨?_, hconst, ?_, ?_⟩
  · intro n hn
    exact (hconst n 0 500 hn le_rfl).mpr (by norm_num)
  · intro xs t hrms
    cases xs with
    | nil => simp [is_silent]
    | cons x xs =>
      unfold is_silent
      rw [if_neg (by simp), hrms]
      exact lt_irrefl t
  · intro t
    simp [is_silent]

/-- Witness for C8 at concrete windows. -/
theorem claim8_witness :
    is_silent (List.replicate 3 (0 : ℝ)) 500 ∧
    (is_silent (List.replicate 2 (1 : ℝ)) 500 ↔ (1 : ℝ) < 500) ∧
    ¬ is_silent [(1 : ℝ)] 1 ∧
    ¬ is_silent ([] : List ℝ) 42 :=
  ⟨claim8_rms_strict.1 3 (by norm_num),
   claim8_rms_strict.2.1 2 1 500 (by norm_num) (by norm_num),
   claim8_rms_strict.2.2.1 [1] 1 (by
      unfold rms
      norm_num),
   claim8_rms_strict.2.2.2 42⟩

/-- C4: since `normalize_audio` maps every int16 sample into
`[-1, 1]`, the RMS of any non-empty normalized window is at most 1, so
with the default threshold 500.0 (applied by `run` to the *normalized*
window) the silence gate classifies every non-empty window as silent
and transcription is always skipped. -/
theorem claim4_always_silent (samples : List ℤ) (h1 : samples ≠ [])
    (h2 : int16Samples samples) :
    is_silent (normalize_audio samples) 500 := by
  have hne : normalize_audio samples ≠ [] := by
    intro hcontra
    apply h1
    have hlen0 := congrArg List.length hcontra
    simpa [normalize_audio, List.length_eq_zero] using hlen0
  unfold is_silent
  rw [if_neg hne]
  unfold rms
  rw [Real.sqrt_lt' (by norm_num : (0 : ℝ) < 500)]
  have hlen : 0 < ((normalize_audio samples).length : ℝ) := by
    exact_mod_cast List.length_pos.mpr hne
  have hbd : ∀ x ∈ (normalize_audio samples).map (fun x => x ^ 2), x ≤ 1 := by
    intro x hx
    obtain ⟨y, hy, rfl⟩ := List.mem_map.mp hx
    have hy' : y ∈ samples.map (fun s : ℤ => (s : ℝ) / INT16_MAX) := hy
    obtain ⟨s, hs, rfl⟩ := List.mem_map.mp hy'
    obtain ⟨hlo, hhi⟩ := h2 s hs
    have hlo' : (-32768 : ℝ) ≤ (s : ℝ) := by exact_mod_cast hlo
    have hhi' : (s : ℝ) ≤ 32767 := by exact_mod_cast hhi
    rw [div_pow]
    rw [div_le_one (by norm_num [INT16_MAX])]
    have : (s : ℝ) ^ 2 ≤ 32768 ^ 2 := sq_le_sq' (by linarith) (by linarith)
    calc (s : ℝ) ^ 2 ≤ 32768 ^ 2 := this
      _ ≤ INT16_MAX ^ 2 := by norm_num [INT16_MAX]
  have hsum : ((normalize_audio samples).map (fun x => x ^ 2)).sum ≤
      ((normalize_audio samples).length : ℝ) := by
    calc ((normalize_audio samples).map (fun x => x ^ 2)).sum
        ≤ ((normalize_audio samples).map (fun x => x ^ 2)).length • (1 : ℝ) :=
          List.sum_le_card_nsmul _ 1 hbd
      _ = ((normalize_audio samples).length : ℝ) := by simp
  have hmean : ((normalize_audio samples).map (fun x => x ^ 2)).sum /
      ((normalize_audio samples).length : ℝ) ≤ 1 :=
    (div_le_one hlen).mpr hsum
  linarith

/-- Witness for C4 at the loudest possible int16 window. -/
theorem claim4_witness :
    is_silent (normalize_audio [32767, -32768]) 500 :=
  claim4_always_silent [32767, -32768] (by simp) (by unfold int16Samples; decide)

end JargonTranslator

namespace JargonTranslator

/-! ### Claim C9 -/

/-- C9: `_process_transcription` catches `APIError` at the per-window
level — an `APIError` outcome of the API call produces no propagated
exception (and no notifications), so the capture loop continues; a
normal API response likewise never propagates an exception.  (Only an
exception that is not an `APIError` escapes the handler.) -/
theorem claim9_apierror_caught :
    (∀ (retries : ℕ) (lastError : Option ErrKind),
      process_transcription (.apiError retries lastError) = .ok []) ∧
    (∀ resp : List Char, ∃ v, process_transcription (.ok resp) = .ok v) := by
  constructor
  · intro retries lastError
    rfl
  · intro resp
    by_cases h : pyStrip resp = []
    · exact ⟨[], by simp [process_transcription, h]⟩
    · exact ⟨split_output_to_notifications resp, by simp [process_transcription, h]⟩

/-! ### Claim C5 -/

/-- Refinement: on a dict input, `_parse_response` never raises and
returns exactly the value at the spec's fixed nested path when that
path is present, and `""` when it is absent. -/
theorem parse_response_obj (fields : List (List Char × JsonVal)) :
    parse_response (.obj fields) =
      .ok ((specContentPath (.obj fields)).getD (.str [])) := by
  unfold parse_response specContentPath
  cases hrows : getField (.obj fields) "rows".data with
  | none => simp [hrows, truthy]
  | some rows =>
    simp only [hrows, Option.getD_some, Option.some_bind]
    by_cases ht : truthy rows = true
    · simp only [ht, if_true]
    · simp only [ht, if_false]
      have hidx : getIdx rows 0 = none := by
        cases rows with
        | arr elems =>
          cases elems with
          | nil => rfl
          | cons e es => simp [truthy] at ht
        | null => rfl
        | bool b => rfl
        | num n => rfl
        | str s => rfl
        | obj kvs => rfl
      simp [hidx]

/-- C5 counterexample: a successful 2xx response whose JSON body is not
a dict (here the list `[]`) makes `_parse_response` raise an uncaught
`AttributeError` (from `response_data.get`) instead of returning the
empty string. -/
theorem claim5_counterexample :
    parse_response (JsonVal.arr []) = .error .attributeError ∧
    parse_response (JsonVal.arr []) ≠ .ok (.str []) := by
  exact ⟨rfl, fun h => nomatch h⟩

/-- C5 (amended): for every 2xx response whose JSON body is a dict,
`_parse_response` never raises: it returns the string at the fixed
nested path `rows[0].columns.Output.choices[0].message.content` when
the path is present, and the empty string when the path is absent
(empty rows, missing keys, wrong nested types, out-of-range index).
For a non-dict body, `.get` raises an uncaught `AttributeError`. -/
theorem claim5_amended_parse (fields : List (List Char × JsonVal)) :
    parse_response (.obj fields) =
      .ok ((specContentPath (.obj fields)).getD (.str [])) :=
  parse_response_obj fields

end JargonTranslator

namespace JargonTranslator

/-! ### Claims C2 and C3 (retry loop) -/

theorem retryable_not_break {e : ErrKind} (h : retryableErr e) : breakCond e = false := by
  cases e with
  | timeout => rfl
  | connError => rfl
  | reqError => rfl
  | httpError status =>
    have h5 : 500 ≤ status := h
    simp [breakCond]
    omega

/-- C2: a 4xx HTTP error on the first attempt makes `send_transcription`
stop immediately: exactly one attempt, no back-off sleep, and an
`APIError` carrying that HTTP error. -/
theorem claim2_no_retry_on_4xx (outcomes : ℕ → Outcome) (maxRetries : ℕ)
    (retryDelay : ℚ) (status : ℕ)
    (hmax : 1 ≤ maxRetries)
    (h1 : outcomes 1 = .err (.httpError status))
    (h4a : 400 ≤ status) (h4b : status < 500) :
    send_transcription outcomes maxRetries retryDelay =
      ⟨.apiError maxRetries (some (.httpError status)), 1, []⟩ := by
  obtain ⟨m, rfl⟩ : ∃ m, maxRetries = m + 1 := ⟨maxRetries - 1, by omega⟩
  unfold send_transcription
  rw [List.range'_succ]
  simp [runAttempts, h1, breakCond, h4b]

/-- Witness for C2 with a 404 on the first attempt and the default
retry budget of 3. -/
theorem claim2_witness :
    send_transcription (fun _ => .err (.httpError 404)) 3 1 =
      ⟨.apiError 3 (some (.httpError 404)), 1, []⟩ :=
  claim2_no_retry_on_4xx (fun _ => .err (.httpError 404)) 3 1 404
    (by norm_num) rfl (by norm_num) (by norm_num)

theorem runAttempts_consume_retryable (outcomes : ℕ → Outcome) (maxRetries : ℕ)
    (retryDelay : ℚ) (L M : List ℕ) :
    ∀ (lastE : Option ErrKind) (made : ℕ) (sleeps : List ℚ),
      (∀ a ∈ L, ∃ e, outcomes a = .err e ∧ breakCond e = false) →
      runAttempts outcomes maxRetries retryDelay (L ++ M) lastE made sleeps =
        runAttempts outcomes maxRetries retryDelay M
          (match L.getLast? with
            | none => lastE
            | some a => errOf (outcomes a))
          (made + L.length)
          (sleeps ++ (L.filter (fun a => a < maxRetries)).map
            (fun a => retryDelay * 2 ^ (a - 1))) := by
  induction L with
  | nil =>
    intro lastE made sleeps _
    simp
  | cons a L ih =>
    intro lastE made sleeps h
    obtain ⟨e, he, hbe⟩ := h a (List.mem_cons_self a L)
    rw [List.cons_append]
    show runAttempts outcomes maxRetries retryDelay (a :: (L ++ M)) lastE made sleeps = _
    rw [runAttempts, he]
    simp only [hbe, Bool.false_eq_true, if_false]
    rw [ih _ _ _ (fun x hx => h x (List.mem_cons_of_mem _ hx))]
    have hlast : (match (a :: L).getLast? with
        | none => lastE
        | some x => errOf (outcomes x)) =
        (match L.getLast? with
        | none => some e
        | some x => errOf (outcomes x)) := by
      cases L with
      | nil => simp [he, errOf]
      | cons b L' =>
        rw [List.getLast?_cons_cons]
        obtain ⟨y, hy⟩ : ∃ y, (b :: L').getLast? = some y :=
          ⟨(b :: L').getLast (List.cons_ne_nil b L'), List.getLast?_eq_getLast _ _⟩
        rw [hy]
    rw [hlast]
    have hsleeps : (if a < maxRetries then sleeps ++ [retryDelay * 2 ^ (a - 1)] else sleeps) ++
        (L.filter (fun x => x < maxRetries)).map (fun x => retryDelay * 2 ^ (x - 1)) =
        sleeps ++ ((a :: L).filter (fun x => x < maxRetries)).map
          (fun x => retryDelay * 2 ^ (x - 1)) := by
      rw [List.filter_cons]
      by_cases ha : a < maxRetries
      · simp [ha, List.append_assoc]
      · simp [ha]
    rw [hsleeps]
    have hlen : made + 1 + L.length = made + (a :: L).length := by
      simp [List.length_cons]
      omega
    rw [hlen]

end JargonTranslator

namespace JargonTranslator

/-- C3: with every attempt failing on a retryable error (timeout,
connection failure, or 5xx), `send_transcription` makes exactly
`max_retries` attempts, sleeps `retry_delay * 2^(k-1)` seconds before
the k-th retry, and raises an `APIError` carrying the last underlying
error; if instead some attempt within the budget returns a 2xx dict
response, the value extracted by `_parse_response` is returned after
exactly that many attempts. -/
theorem claim3_retry_backoff (outcomes : ℕ → Outcome) (maxRetries : ℕ) (retryDelay : ℚ) :
    (1 ≤ maxRetries →
      (∀ k, 1 ≤ k → k ≤ maxRetries → ∃ e, outcomes k = .err e ∧ retryableErr e) →
      ∃ e, outcomes maxRetries = .err e ∧
        send_transcription outcomes maxRetries retryDelay =
          ⟨.apiError maxRetries (some e), maxRetries,
            (List.range' 1 (maxRetries - 1)).map (fun a => retryDelay * 2 ^ (a - 1))⟩) ∧
    (∀ (j : ℕ) (fields : List (List Char × JsonVal)),
      1 ≤ j → j ≤ maxRetries → outcomes j = .ok (.obj fields) →
      (∀ k, 1 ≤ k → k < j → ∃ e, outcomes k = .err e ∧ retryableErr e) →
      ∃ v, parse_response (.obj fields) = .ok v ∧
        (send_transcription outcomes maxRetries retryDelay).result = .parsed v ∧
        (send_transcription outcomes maxRetries retryDelay).attempts = j) := by
  constructor
  · intro hmax hall
    obtain ⟨m, rfl⟩ : ∃ m, maxRetries = m + 1 := ⟨maxRetries - 1, by omega⟩
    obtain ⟨eL, heL, _⟩ := hall (m + 1) (by omega) le_rfl
    refine ⟨eL, heL, ?_⟩
    have hpre : ∀ a ∈ List.range' 1 (m + 1),
        ∃ e, outcomes a = .err e ∧ breakCond e = false := by
      intro a ha
      rw [List.mem_range'_1] at ha
      obtain ⟨e, he, hr⟩ := hall a ha.1 (by omega)
      exact ⟨e, he, retryable_not_break hr⟩
    unfold send_transcription
    conv_lhs => rw [← List.append_nil (List.range' 1 (m + 1))]
    rw [runAttempts_consume_retryable outcomes (m + 1) retryDelay
      (List.range' 1 (m + 1)) [] none 0 [] hpre]
    rw [runAttempts]
    have hlast : List.range' 1 (m + 1) = List.range' 1 m ++ [m + 1] := by
      have hc := List.range'_1_concat 1 m
      simpa [Nat.add_comm] using hc
    simp only [CallTrace.mk.injEq]
    refine ⟨?_, ?_, ?_⟩
    · rw [hlast, List.getLast?_concat]
      simp [errOf, heL]
    · simp
    · rw [hlast, List.filter_append]
      have hkeep : (List.range' 1 m).filter (fun a => a < m + 1) = List.range' 1 m := by
        refine List.filter_eq_self.mpr ?_
        intro a ha
        rw [List.mem_range'_1] at ha
        simp
        omega
      have hdrop : ([m + 1] : List ℕ).filter (fun a => a < m + 1) = [] := by simp
      rw [hkeep, hdrop, List.append_nil, List.nil_append]
      simp
  · intro j fields hj1 hj2 hok hprev
    have hsplit : List.range' 1 maxRetries =
        List.range' 1 (j - 1) ++ List.range' j (maxRetries - (j - 1)) := by
      have happ := List.range'_append_1 1 (j - 1) (maxRetries - (j - 1))
      have h1 : 1 + (j - 1) = j := by omega
      have h2 : maxRetries - (j - 1) + (j - 1) = maxRetries := by omega
      rw [h1, h2] at happ
      exact happ.symm
    have hpre : ∀ a ∈ List.range' 1 (j - 1),
        ∃ e, outcomes a = .err e ∧ breakCond e = false := by
      intro a ha
      rw [List.mem_range'_1] at ha
      obtain ⟨e, he, hr⟩ := hprev a ha.1 (by omega)
      exact ⟨e, he, retryable_not_break hr⟩
    obtain ⟨n, hn⟩ : ∃ n, maxRetries - (j - 1) = n + 1 := ⟨maxRetries - j, by omega⟩
    refine ⟨(specContentPath (.obj fields)).getD (.str []), parse_response_obj fields, ?_, ?_⟩
    · unfold send_transcription
      rw [hsplit, runAttempts_consume_retryable outcomes maxRetries retryDelay
        (List.range' 1 (j - 1)) _ none 0 [] hpre, hn, List.range'_succ, runAttempts, hok]
      simp [parse_response_obj fields]
    · unfold send_transcription
      rw [hsplit, runAttempts_consume_retryable outcomes maxRetries retryDelay
        (List.range' 1 (j - 1)) _ none 0 [] hpre, hn, List.range'_succ, runAttempts, hok]
      simp [parse_response_obj fields, List.length_range']
      omega

/-- Witness for C3: all-timeouts with budget 2 exhausts after 2 attempts
with one 1-second sleep; a connection failure then a 2xx dict response
with budget 3 returns the parsed value after 2 attempts. -/
theorem claim3_witness :
    (∃ e, (fun _ : ℕ => Outcome.err .timeout) 2 = .err e ∧
      send_transcription (fun _ => .err .timeout) 2 1 =
        ⟨.apiError 2 (some e), 2, (List.range' 1 1).map (fun a => (1 : ℚ) * 2 ^ (a - 1))⟩) ∧
    (∃ v, parse_response (.obj []) = .ok v ∧
      (send_transcription (fun k => if k = 1 then .err .connError else .ok (.obj [])) 3 1).result =
        .parsed v ∧
      (send_transcription (fun k => if k = 1 then .err .connError else .ok (.obj [])) 3 1).attempts =
        2) :=
  ⟨(claim3_retry_backoff (fun _ => .err .timeout) 2 1).1 (by norm_num)
      (fun k _ _ => ⟨.timeout, rfl, trivial⟩),
   (claim3_retry_backoff (fun k => if k = 1 then .err .connError else .ok (.obj [])) 3 1).2
      2 [] (by norm_num) (by norm_num) rfl
      (fun k hk1 hk2 => by
        have hk : k = 1 := by omega
        subst hk
        exact ⟨.connError, rfl, trivial⟩)⟩

end JargonTranslator

namespace JargonTranslator

/-! ### Claim C10 (buffer accumulator) -/

theorem ceil_div_eq_succ {c k B : ℕ} (hc : 0 < c) (hlt : c * k < B)
    (hle : B ≤ c * (k + 1)) : (B + c - 1) / c = k + 1 := by
  have e1 : (k + 1) * c = c * k + c := by
    rw [Nat.succ_mul, Nat.mul_comm k c]
  have e2 : (k + 1 + 1) * c = c * k + c + c := by
    rw [Nat.succ_mul, e1]
  have hle' : B ≤ c * k + c := by
    rw [Nat.mul_succ] at hle
    exact hle
  have harith : ∀ t : ℕ, t < B → B ≤ t + c →
      (k + 1) * c = t + c → (k + 1 + 1) * c = t + c + c →
      (k + 1) * c ≤ B + c - 1 ∧ B + c - 1 < (k + 1 + 1) * c := by
    intro t h1 h2 h3 h4
    omega
  obtain ⟨lo, hi⟩ := harith (c * k) hlt hle' e1 e2
  exact Nat.div_eq_of_lt_le lo hi

theorem runAcc_spec (c B : ℕ) (hc : 0 < c) (hB : 0 < B) (n : ℕ) :
    (runAcc c B n).1 < B ∧ c ∣ (runAcc c B n).1 ∧
      ∀ w ∈ (runAcc c B n).2, w = c * ((B + c - 1) / c) ∧ B ≤ w := by
  induction n with
  | zero => exact ⟨hB, dvd_zero c, by simp [runAcc]⟩
  | succ n ih =>
    obtain ⟨hlt, ⟨k, hk⟩, hws⟩ := ih
    by_cases hemit : B ≤ (runAcc c B n).1 + c
    · have hstep : runAcc c B (n + 1) = (0, (runAcc c B n).2 ++ [(runAcc c B n).1 + c]) := by
        rw [runAcc]
        simp [accStep, hemit]
      rw [hstep]
      refine ⟨hB, dvd_zero c, ?_⟩
      intro w hw
      rcases List.mem_append.mp hw with hw1 | hw1
      · exact hws w hw1
      · have hweq : w = (runAcc c B n).1 + c := by simpa using hw1
        subst hweq
        constructor
        · rw [hk]
          rw [ceil_div_eq_succ hc (hk ▸ hlt) (by rw [Nat.mul_succ, ← hk]; exact hemit)]
          rw [Nat.mul_succ]
        · exact hemit
    · have hstep : runAcc c B (n + 1) = ((runAcc c B n).1 + c, (runAcc c B n).2) := by
        rw [runAcc]
        simp [accStep, hemit]
      rw [hstep]
      refine ⟨by omega, ⟨k + 1, by rw [hk, Nat.mul_succ]⟩, hws⟩

set_option maxRecDepth 10000 in
/-- C10 counterexample: under the default configuration the chunk read
adds 2048 bytes (`chunk_size` 1024 frames × 1 channel × 2 bytes) and
the target is `windowBytes 16000 1 10 = 320000`, which 2048 does not
divide; the first emitted window has 321536 bytes, not 320000. -/
theorem claim10_counterexample :
    321536 ∈ (runAcc 2048 (windowBytes 16000 1 10) 157).2 ∧
    321536 ≠ windowBytes 16000 1 10 := by
  constructor
  · decide
  · decide

/-- C10 (amended): every window handed to the silence gate has byte
length `c * ⌈B / c⌉` — the least multiple of the chunk byte size `c`
that reaches the target `B = sample_rate * channels * buffer_duration
* 2` — hence always at least `B`, and exactly `B` precisely when `c`
divides `B` (which fails under the default configuration). -/
theorem claim10_amended_window_length (c B n w : ℕ) (hc : 0 < c) (hB : 0 < B)
    (hw : w ∈ (runAcc c B n).2) :
    w = c * ((B + c - 1) / c) ∧ B ≤ w ∧ (w = B ↔ c ∣ B) := by
  obtain ⟨hceil, hge⟩ := (runAcc_spec c B hc hB n).2.2 w hw
  refine ⟨hceil, hge, ?_, ?_⟩
  · intro hwB
    exact ⟨(B + c - 1) / c, hwB ▸ hceil⟩
  · rintro ⟨q, rfl⟩
    rw [hceil]
    have hq : 0 < q := by
      rcases Nat.eq_zero_or_pos q with rfl | hq
      · simp at hB
      · exact hq
    have harith : ∀ t : ℕ, 0 < c → t + c - 1 = (c - 1) + t := by
      intro t hc'
      omega
    rw [harith (c * q) hc, Nat.add_mul_div_left _ _ hc,
      Nat.div_eq_of_lt (by omega), Nat.zero_add]

/-- Witness for C10 (amended) with chunk size 4 and target 8. -/
theorem claim10_witness :
    8 = 4 * ((8 + 4 - 1) / 4) ∧ 8 ≤ 8 ∧ (8 = 8 ↔ 4 ∣ 8) :=
  claim10_amended_window_length 4 8 3 8 (by norm_num) (by norm_num) (by decide)

end JargonTranslator
